import Mathlib

/-!
Shallow embedding of the SIGNTOSM service (src/app.py): a Flask app that
accepts a PDF upload, extracts the embedded images page by page with
exact-byte deduplication, converts JPEG2000-family images to PNG, names the
outputs positionally (user-img / sign-img / unprefixed) with a 30-digit
random numeric string, and returns JSON responses that always carry a fixed
TG_Channel field.

Externals that cannot be embedded are parameters of an environment:
Python's built-in hash (`h`), PIL's Image.open / convert("RGB") / PNG save
(`pilOpen`, `mode`, `toRGB`, `savePNG`), and the stream of random digits
(`dig`, one stream per call of generate_random_number).  Bytes are `List
Nat`, a parsed PDF is `Option (List Page)` (`none` is a parse failure), and
file-system writes are recorded in the state (`written`).
-/

namespace Signtosm

/-- Lower-case a string character by character, as Python str.lower acts on
the ASCII names that occur here. -/
def strLower (s : String) : String := ⟨s.data.map Char.toLower⟩

/-- Python str.rfind: index of the last occurrence of `c` in `l`, or -1 when
`c` does not occur. -/
def pyRfind (l : List Char) (c : Char) : Int :=
  (l.foldl (fun acc ch => (if ch = c then (acc.2 : Int) else acc.1, acc.2 + 1))
    ((-1 : Int), (0 : Nat))).1

/-- os.path.splitext on posix paths: split at the last dot, provided it comes
after the last slash and the base name is not made of leading dots only. -/
def splitext (p : String) : String × String :=
  let l := p.data
  let sepIndex := pyRfind l '/'
  let dotIndex := pyRfind l '.'
  if sepIndex < dotIndex then
    let filenameIndex := (sepIndex + 1).toNat
    let stop := dotIndex.toNat
    if (List.range' filenameIndex (stop - filenameIndex)).any
        (fun i => l.getD i '.' != '.') then
      (⟨l.take stop⟩, ⟨l.drop stop⟩)
    else (p, "")
  else (p, "")

/-- generate_random_number: the join of `length` decimal digits drawn from the
random stream `dig` (each draw is random.randint(0, 9), rendered by str). -/
def generate_random_number (dig : Nat → Fin 10) : Nat → String
  | 0 => ""
  | n + 1 => generate_random_number dig n ++ toString (dig n).val

/-- ALLOWED_EXTENSIONS = set containing the single entry "pdf". -/
def ALLOWED_EXTENSIONS : List String := ["pdf"]

/-- allowed_file: the name contains a dot and the part after the last dot,
lower-cased, is an allowed extension. -/
def allowed_file (filename : String) : Bool :=
  filename.data.contains '.' &&
    ALLOWED_EXTENSIONS.contains
      (strLower ⟨filename.data.drop ((pyRfind filename.data '.') + 1).toNat⟩)

/-- MAX_FILE_SIZE = 2 * 1024 * 1024 bytes (the 2 MB limit). -/
def MAX_FILE_SIZE : Nat := 2 * 1024 * 1024

/-- An embedded image of a page: its raw payload bytes and its declared name. -/
structure EmbeddedImage where
  data : List Nat
  name : String
deriving DecidableEq

/-- A page contributes its embedded images in structural order. -/
abbrev Page := List EmbeddedImage

/-- A record of one output file written during extraction: the filename, the
extension used to build it, the bytes written, and the raw payload of the
embedded image it came from. -/
structure OutFile where
  name : String
  ext : String
  data : List Nat
  src : List Nat
deriving DecidableEq

/-- The external functions the extractor calls: Python's hash on byte
payloads, PIL's Image.open (decode, `none` on failure), the mode of a decoded
image, convert("RGB"), saving as PNG (`none` when saving raises), and the
random digit streams (call index, then draw index). -/
structure Env (Img : Type) where
  h : List Nat → Int
  pilOpen : List Nat → Option Img
  mode : Img → String
  toRGB : Img → Img
  savePNG : Img → Option (List Nat)
  dig : Nat → Nat → Fin 10

variable {Img : Type}

/-- The JP2/JPEG2000-to-PNG branch body: open the payload with PIL, convert
to RGB when the mode is "RGBA" or "P", and re-encode as PNG; `none` when any
of these raises. -/
def jp2Convert (env : Env Img) (image_data : List Nat) : Option (List Nat) :=
  match env.pilOpen image_data with
  | none => none
  | some img =>
      let img := if env.mode img = "RGBA" ∨ env.mode img = "P" then env.toRGB img else img
      env.savePNG img

/-- Codec normalization of one image: for a JPEG2000-family extension the
converted PNG bytes with extension ".png" (or `none` when conversion fails,
in which case the image is skipped); any other extension passes through. -/
def normalizeImage (env : Env Img) (image_data : List Nat) (ext : String) :
    Option (List Nat × String) :=
  if ext ∈ [".jp2", ".jpx"] then
    match jp2Convert env image_data with
    | some d => some (d, ".png")
    | none => none
  else some (image_data, ext)

/-- The naming logic: a 30-digit random string, prefixed "user-img-" for the
first written image, "sign-img-" for the second, bare afterwards, suffixed
with the (possibly normalized) extension. -/
def outName (env : Env Img) (count : Nat) (e : String) : String :=
  let random_number := generate_random_number (env.dig count) 30
  if count = 0 then "user-img-" ++ random_number ++ e
  else if count = 1 then "sign-img-" ++ random_number ++ e
  else random_number ++ e

/-- The mutable state of the extraction loop: the set of seen hashes, the
running count of written images, the list of output filenames returned, and
the record of files written to the output directory. -/
structure St where
  seen_images : List Int
  image_count : Nat
  extracted_files : List String
  written : List OutFile
deriving DecidableEq

/-- One iteration of the inner loop of extract_images_from_pdf: skip if the
payload's hash was seen, otherwise record the hash, normalize the codec
(skipping the image when conversion fails), and write and record the output
file under its positional name. -/
def step (env : Env Img) (s : St) (image : EmbeddedImage) : St :=
  let image_hash := env.h image.data
  if image_hash ∈ s.seen_images then s
  else
    match normalizeImage env image.data (strLower (splitext image.name).2) with
    | none => { s with seen_images := image_hash :: s.seen_images }
    | some (d, e) =>
        let filename := outName env s.image_count e
        { seen_images := image_hash :: s.seen_images,
          image_count := s.image_count + 1,
          extracted_files := s.extracted_files ++ [filename],
          written := s.written ++ [⟨filename, e, d, image.data⟩] }

/-- The inner loop over one page's images. -/
def processImages (env : Env Img) (images : List EmbeddedImage) (s : St) : St :=
  images.foldl (step env) s

/-- The outer loop over the document's pages. -/
def processPages (env : Env Img) (pages : List Page) (s : St) : St :=
  pages.foldl (fun s page => processImages env page s) s

/-- The loop state at entry: empty seen set, zero count, no files. -/
def initSt : St := ⟨[], 0, [], []⟩

/-- The final state of a successful (exception-free) extraction run. -/
def extractRun (env : Env Img) (pages : List Page) : St :=
  processPages env pages initSt

/-- extract_images_from_pdf: parse failure yields the initial (empty) list;
otherwise run the page loop and return the accumulated filenames. -/
def extract_images_from_pdf (env : Env Img) (pdf : Option (List Page)) :
    List String :=
  match pdf with
  | none => []
  | some pages => (extractRun env pages).extracted_files

/-- The loop when an exception may be raised while handling the image at a
given flattened index: the try/except swallows it and the accumulated
extracted_files of that moment is returned. -/
def stepsAbort (env : Env Img) (abort : Nat → Bool) :
    Nat → List EmbeddedImage → St → St
  | _, [], s => s
  | i, image :: rest, s =>
      if abort i then s
      else stepsAbort env abort (i + 1) rest (step env s image)

/-- extract_images_from_pdf when an exception interrupts the loop: the
filenames appended before the failure are still returned. -/
def extractAbort (env : Env Img) (abort : Nat → Bool) (pdf : Option (List Page)) :
    List String :=
  match pdf with
  | none => []
  | some pages => (stepsAbort env abort 0 pages.flatten initSt).extracted_files

/-- A JSON value, as far as the service's responses need. -/
inductive Json where
  | str : String → Json
  | arr : List Json → Json
  | obj : List (String × Json) → Json

/-- Python dict assignment d[k] = v on an association list: replace in place
when the key exists, append otherwise. -/
def setKey (k : String) (v : Json) : List (String × Json) → List (String × Json)
  | [] => [(k, v)]
  | (k', v') :: rest => if k' = k then (k, v) :: rest else (k', v') :: setKey k v rest

/-- Lookup of a key in a JSON object. -/
def jsonLookup (k : String) : List (String × Json) → Option Json
  | [] => none
  | (k', v) :: rest => if k' = k then some v else jsonLookup k rest

/-- The constant channel tag attached to every JSON response. -/
def TG_CHANNEL : String := "@UNKNOWN_X_1337_BOT"

/-- make_response: attach the TG_Channel field and pair the body with the
HTTP status. -/
def make_response (data : List (String × Json)) (status : Nat) :
    List (String × Json) × Nat :=
  (setKey "TG_Channel" (Json.str TG_CHANNEL) data, status)

/-- The GET / route. -/
def home : List (String × Json) × Nat :=
  make_response [("status", Json.str "Images Extractor Active")] 200

/-- An upload request as the route observes it: whether the multipart field
"file" is present, the uploaded filename, the byte size of the stream, and
the parse outcome of the saved bytes. -/
structure UploadRequest where
  hasFilePart : Bool
  filename : String
  size : Nat
  pdf : Option (List Page)

/-- The POST /images route: the four 400 gates in order (missing part, empty
filename, extension, size), then extraction, then one of the two 200
responses. -/
def upload_file (env : Env Img) (urlFor : String → String) (req : UploadRequest) :
    List (String × Json) × Nat :=
  if !req.hasFilePart then make_response [("error", Json.str "No file part")] 400
  else if req.filename = "" then
    make_response [("error", Json.str "No selected file")] 400
  else if !allowed_file req.filename then
    make_response [("error", Json.str "Invalid file type")] 400
  else if req.size > MAX_FILE_SIZE then
    make_response [("error", Json.str "File size exceeds 2 MB limit")] 400
  else
    let extracted_images := extract_images_from_pdf env req.pdf
    if extracted_images = [] then
      make_response [("message", Json.str "No images found in the PDF")] 200
    else
      let images_dict :=
        (if extracted_images.length ≥ 1 then
          [("user-image", Json.str (urlFor (extracted_images.getD 0 "")))] else [])
        ++ (if extracted_images.length ≥ 2 then
          [("sign-image", Json.str (urlFor (extracted_images.getD 1 "")))] else [])
        ++ (if extracted_images.length > 2 then
          [("extra-images",
            Json.arr ((extracted_images.drop 2).map (fun f => Json.str (urlFor f))))]
          else [])
      make_response [("message", Json.str "Images extracted successfully"),
        ("totalImages", Json.str (toString extracted_images.length)),
        ("images", Json.obj images_dict)] 200

/-- The set of hashes after the loop has run over a list of images: every
non-duplicate image contributes its payload hash, written or skipped. -/
def seenAfter (env : Env Img) (seen : List Int) : List EmbeddedImage → List Int
  | [] => seen
  | image :: rest =>
      if env.h image.data ∈ seen then seenAfter env seen rest
      else seenAfter env (env.h image.data :: seen) rest

/-- The output files the loop appends when started with the given seen set
and count (a normal form of the loop, proved equal to it below). -/
def newOuts (env : Env Img) (seen : List Int) (count : Nat) :
    List EmbeddedImage → List OutFile
  | [] => []
  | image :: rest =>
      let image_hash := env.h image.data
      if image_hash ∈ seen then newOuts env seen count rest
      else
        match normalizeImage env image.data (strLower (splitext image.name).2) with
        | none => newOuts env (image_hash :: seen) count rest
        | some (d, e) =>
            ⟨outName env count e, e, d, image.data⟩ ::
              newOuts env (image_hash :: seen) (count + 1) rest

/-- The normalized output extension of an image: ".png" for the JPEG2000
family, otherwise the lower-cased declared extension. -/
def normExt (image : EmbeddedImage) : String :=
  let ext := strLower (splitext image.name).2
  if ext ∈ [".jp2", ".jpx"] then ".png" else ext

/-- The filenames a failure-free run over pairwise-fresh images produces,
one per image, counted from `count`. -/
def namesFrom (env : Env Img) (count : Nat) : List EmbeddedImage → List String
  | [] => []
  | image :: rest => outName env count (normExt image) :: namesFrom env (count + 1) rest

/-- Concrete environment for evaluation: content-determined hash, decoding
always succeeds with a plain RGB image, PNG encoding succeeds, all random
digits zero. -/
def envU : Env Unit :=
  ⟨fun d => d.foldl (fun a b => 256 * a + (b : Int)) 1,
   fun _ => some (), fun _ => "RGB", fun i => i, fun _ => some [9], fun _ _ => 0⟩

/-- Concrete environment for evaluation where PIL decoding always fails. -/
def envF : Env Unit :=
  ⟨fun d => d.foldl (fun a b => 256 * a + (b : Int)) 1,
   fun _ => none, fun _ => "RGB", fun i => i, fun _ => some [9], fun _ _ => 0⟩

/-- Concrete sample image a. -/
def iA : EmbeddedImage := ⟨[0], "a.png"⟩

/-- Concrete sample image b. -/
def iB : EmbeddedImage := ⟨[1], "b.png"⟩

/-- Concrete sample JPEG2000 image. -/
def iJ : EmbeddedImage := ⟨[2], "c.jp2"⟩

/-- Identity URL builder for concrete evaluation. -/
def urlId : String → String := fun f => f

/-- Concrete valid request whose saved bytes fail to parse. -/
def reqN : UploadRequest := ⟨true, "a.pdf", 0, none⟩

/-- Concrete valid request whose document parses and has zero images. -/
def reqE : UploadRequest := ⟨true, "a.pdf", 0, some []⟩

/-- Concrete request with a non-PDF filename. -/
def reqTxt : UploadRequest := ⟨true, "doc.txt", 0, none⟩

/-- Concrete request one byte over the size limit. -/
def reqBig : UploadRequest := ⟨true, "a.pdf", 2 * 1024 * 1024 + 1, none⟩

theorem step_mem (env : Env Img) (s : St) (image : EmbeddedImage)
    (h : env.h image.data ∈ s.seen_images) : step env s image = s := by
  simp [step, h]

theorem step_skip (env : Env Img) (s : St) (image : EmbeddedImage)
    (h1 : env.h image.data ∉ s.seen_images)
    (h2 : normalizeImage env image.data (strLower (splitext image.name).2) = none) :
    step env s image = { s with seen_images := env.h image.data :: s.seen_images } := by
  simp [step, h1, h2]

theorem step_write (env : Env Img) (s : St) (image : EmbeddedImage)
    (d : List Nat) (e : String)
    (h1 : env.h image.data ∉ s.seen_images)
    (h2 : normalizeImage env image.data (strLower (splitext image.name).2) = some (d, e)) :
    step env s image =
      ⟨env.h image.data :: s.seen_images, s.image_count + 1,
       s.extracted_files ++ [outName env s.image_count e],
       s.written ++ [⟨outName env s.image_count e, e, d, image.data⟩]⟩ := by
  simp [step, h1, h2]

theorem newOuts_cons (env : Env Img) (image : EmbeddedImage)
    (rest : List EmbeddedImage) (seen : List Int) (c : Nat) :
    newOuts env seen c (image :: rest) =
      if env.h image.data ∈ seen then newOuts env seen c rest
      else
        match normalizeImage env image.data (strLower (splitext image.name).2) with
        | none => newOuts env (env.h image.data :: seen) c rest
        | some (d, e) =>
            ⟨outName env c e, e, d, image.data⟩ ::
              newOuts env (env.h image.data :: seen) (c + 1) rest := rfl

theorem seenAfter_cons (env : Env Img) (image : EmbeddedImage)
    (rest : List EmbeddedImage) (seen : List Int) :
    seenAfter env seen (image :: rest) =
      if env.h image.data ∈ seen then seenAfter env seen rest
      else seenAfter env (env.h image.data :: seen) rest := rfl

theorem processImages_spec (env : Env Img) :
    ∀ (l : List EmbeddedImage) (seen : List Int) (c : Nat)
      (f : List String) (w : List OutFile),
    processImages env l ⟨seen, c, f, w⟩ =
      ⟨seenAfter env seen l, c + (newOuts env seen c l).length,
       f ++ (newOuts env seen c l).map OutFile.name, w ++ newOuts env seen c l⟩
  | [], seen, c, f, w => by
      simp [processImages, seenAfter, newOuts]
  | image :: rest, seen, c, f, w => by
      rw [show processImages env (image :: rest) ⟨seen, c, f, w⟩
            = processImages env rest (step env ⟨seen, c, f, w⟩ image) from rfl]
      by_cases hm : env.h image.data ∈ seen
      · rw [step_mem env _ image hm, processImages_spec env rest seen c f w,
          newOuts_cons, seenAfter_cons, if_pos hm, if_pos hm]
      · cases hn : normalizeImage env image.data (strLower (splitext image.name).2) with
        | none =>
            rw [step_skip env _ image hm hn]
            rw [processImages_spec env rest _ c f w]
            rw [newOuts_cons, seenAfter_cons, if_neg hm, if_neg hm, hn]
        | some de =>
            obtain ⟨d, e⟩ := de
            rw [step_write env _ image d e hm hn]
            rw [processImages_spec env rest _ (c + 1) _ _]
            rw [newOuts_cons, seenAfter_cons, if_neg hm, if_neg hm, hn]
            simp [St.mk.injEq, List.append_assoc]
            omega

theorem processPages_eq_flatten (env : Env Img) (pages : List Page) (s : St) :
    processPages env pages s = processImages env pages.flatten s := by
  simp [processPages, processImages, List.foldl_flatten]

theorem extractRun_spec (env : Env Img) (pages : List Page) :
    extractRun env pages =
      ⟨seenAfter env [] pages.flatten, (newOuts env [] 0 pages.flatten).length,
       (newOuts env [] 0 pages.flatten).map OutFile.name,
       newOuts env [] 0 pages.flatten⟩ := by
  rw [extractRun, processPages_eq_flatten]
  rw [show (initSt : St) = ⟨[], 0, [], []⟩ from rfl, processImages_spec]
  simp

theorem extract_images_eq_names (env : Env Img) (pages : List Page) :
    extract_images_from_pdf env (some pages) =
      (newOuts env [] 0 pages.flatten).map OutFile.name := by
  rw [extract_images_from_pdf, extractRun_spec]

theorem seenAfter_append (env : Env Img) :
    ∀ (a b : List EmbeddedImage) (seen : List Int),
    seenAfter env seen (a ++ b) = seenAfter env (seenAfter env seen a) b
  | [], b, seen => rfl
  | image :: rest, b, seen => by
      rw [List.cons_append, seenAfter_cons, seenAfter_cons]
      by_cases hm : env.h image.data ∈ seen
      · rw [if_pos hm, if_pos hm, seenAfter_append env rest b seen]
      · rw [if_neg hm, if_neg hm, seenAfter_append env rest b _]

theorem newOuts_append (env : Env Img) :
    ∀ (a b : List EmbeddedImage) (seen : List Int) (c : Nat),
    newOuts env seen c (a ++ b) =
      newOuts env seen c a ++
        newOuts env (seenAfter env seen a) (c + (newOuts env seen c a).length) b
  | [], b, seen, c => by simp [newOuts, seenAfter]
  | image :: rest, b, seen, c => by
      rw [List.cons_append, newOuts_cons, newOuts_cons, seenAfter_cons]
      by_cases hm : env.h image.data ∈ seen
      · rw [if_pos hm, if_pos hm, if_pos hm, newOuts_append env rest b seen c]
      · rw [if_neg hm, if_neg hm, if_neg hm]
        cases hn : normalizeImage env image.data (strLower (splitext image.name).2) with
        | none => rw [newOuts_append env rest b _ c]
        | some de =>
            obtain ⟨d, e⟩ := de
            dsimp only
            have harith :
                c + ((newOuts env (env.h image.data :: seen) (c + 1) rest).length + 1) =
                  c + 1 + (newOuts env (env.h image.data :: seen) (c + 1) rest).length := by
              omega
            rw [newOuts_append env rest b (env.h image.data :: seen) (c + 1),
              List.cons_append, List.length_cons, harith]

theorem mem_seenAfter_iff (env : Env Img) :
    ∀ (l : List EmbeddedImage) (seen : List Int) (x : Int),
    x ∈ seenAfter env seen l ↔ x ∈ seen ∨ ∃ image ∈ l, x = env.h image.data
  | [], seen, x => by simp [seenAfter]
  | image :: rest, seen, x => by
      rw [seenAfter_cons]
      by_cases hm : env.h image.data ∈ seen
      · rw [if_pos hm, mem_seenAfter_iff env rest seen x]
        constructor
        · rintro (hx | ⟨im, him, hxe⟩)
          · exact Or.inl hx
          · exact Or.inr ⟨im, List.mem_cons_of_mem _ him, hxe⟩
        · rintro (hx | ⟨im, him, hxe⟩)
          · exact Or.inl hx
          · rcases List.mem_cons.mp him with h1 | h1
            · exact Or.inl (hxe ▸ h1 ▸ hm)
            · exact Or.inr ⟨im, h1, hxe⟩
      · rw [if_neg hm, mem_seenAfter_iff env rest _ x]
        constructor
        · rintro (hx | ⟨im, him, hxe⟩)
          · rcases List.mem_cons.mp hx with h1 | h1
            · exact Or.inr ⟨image, List.mem_cons_self _ _, h1⟩
            · exact Or.inl h1
          · exact Or.inr ⟨im, List.mem_cons_of_mem _ him, hxe⟩
        · rintro (hx | ⟨im, him, hxe⟩)
          · exact Or.inl (List.mem_cons_of_mem _ hx)
          · rcases List.mem_cons.mp him with h1 | h1
            · exact Or.inl (h1 ▸ hxe ▸ List.mem_cons_self _ _)
            · exact Or.inr ⟨im, h1, hxe⟩

theorem newOuts_src (env : Env Img) :
    ∀ (l : List EmbeddedImage) (seen : List Int) (c : Nat),
    ∀ o ∈ newOuts env seen c l,
      (∃ image ∈ l, o.src = image.data) ∧ env.h o.src ∉ seen
  | [], seen, c => by simp [newOuts]
  | image :: rest, seen, c => by
      rw [newOuts_cons]
      by_cases hm : env.h image.data ∈ seen
      · rw [if_pos hm]
        intro o ho
        obtain ⟨⟨im, him, hsrc⟩, hns⟩ := newOuts_src env rest seen c o ho
        exact ⟨⟨im, List.mem_cons_of_mem _ him, hsrc⟩, hns⟩
      · rw [if_neg hm]
        cases hn : normalizeImage env image.data (strLower (splitext image.name).2) with
        | none =>
            intro o ho
            obtain ⟨⟨im, him, hsrc⟩, hns⟩ := newOuts_src env rest _ c o ho
            refine ⟨⟨im, List.mem_cons_of_mem _ him, hsrc⟩, fun hx => hns ?_⟩
            exact List.mem_cons_of_mem _ hx
        | some de =>
            obtain ⟨d, e⟩ := de
            intro o ho
            rcases List.mem_cons.mp ho with h1 | h1
            · subst h1
              exact ⟨⟨image, List.mem_cons_self _ _, rfl⟩, hm⟩
            · obtain ⟨⟨im, him, hsrc⟩, hns⟩ := newOuts_src env rest _ (c + 1) o h1
              refine ⟨⟨im, List.mem_cons_of_mem _ him, hsrc⟩, fun hx => hns ?_⟩
              exact List.mem_cons_of_mem _ hx

theorem newOuts_pairwise (env : Env Img) :
    ∀ (l : List EmbeddedImage) (seen : List Int) (c : Nat),
    (newOuts env seen c l).Pairwise (fun o1 o2 => env.h o1.src ≠ env.h o2.src)
  | [], seen, c => by simp [newOuts]
  | image :: rest, seen, c => by
      rw [newOuts_cons]
      by_cases hm : env.h image.data ∈ seen
      · rw [if_pos hm]; exact newOuts_pairwise env rest seen c
      · rw [if_neg hm]
        cases hn : normalizeImage env image.data (strLower (splitext image.name).2) with
        | none => exact newOuts_pairwise env rest _ c
        | some de =>
            obtain ⟨d, e⟩ := de
            refine List.Pairwise.cons ?_ (newOuts_pairwise env rest _ (c + 1))
            intro o ho heq
            have := (newOuts_src env rest _ (c + 1) o ho).2
            exact this (heq ▸ List.mem_cons_self _ _)

theorem newOuts_seen_mid (env : Env Img) :
    ∀ (l : List EmbeddedImage) (x : Int), (∀ image ∈ l, env.h image.data ≠ x) →
    ∀ (u v : List Int) (c : Nat),
    newOuts env (u ++ x :: v) c l = newOuts env (u ++ v) c l
  | [], _, _, _, _, _ => rfl
  | image :: rest, x, hx, u, v, c => by
      rw [newOuts_cons, newOuts_cons]
      have hne : env.h image.data ≠ x := hx image (List.mem_cons_self _ _)
      have hmem : env.h image.data ∈ u ++ x :: v ↔ env.h image.data ∈ u ++ v := by
        simp [List.mem_append, List.mem_cons, hne]
      by_cases hm : env.h image.data ∈ u ++ v
      · rw [if_pos (hmem.mpr hm), if_pos hm]
        exact newOuts_seen_mid env rest x
          (fun im him => hx im (List.mem_cons_of_mem _ him)) u v c
      · rw [if_neg (fun hc => hm (hmem.mp hc)), if_neg hm]
        cases hn : normalizeImage env image.data (strLower (splitext image.name).2) with
        | none =>
            rw [← List.cons_append, ← List.cons_append]
            exact newOuts_seen_mid env rest x
              (fun im him => hx im (List.mem_cons_of_mem _ him))
              (env.h image.data :: u) v c
        | some de =>
            obtain ⟨d, e⟩ := de
            dsimp only
            rw [← List.cons_append, ← List.cons_append]
            rw [newOuts_seen_mid env rest x
              (fun im him => hx im (List.mem_cons_of_mem _ him))
              (env.h image.data :: u) v (c + 1)]

theorem normalizeImage_cases (env : Env Img) (image_data : List Nat) (ext : String)
    (d : List Nat) (e : String) (h : normalizeImage env image_data ext = some (d, e)) :
    (ext ∈ [".jp2", ".jpx"] ∧ e = ".png" ∧ jp2Convert env image_data = some d) ∨
    (ext ∉ [".jp2", ".jpx"] ∧ e = ext ∧ d = image_data) := by
  by_cases hj : ext ∈ [".jp2", ".jpx"]
  · left
    refine ⟨hj, ?_⟩
    simp only [normalizeImage, if_pos hj] at h
    cases hc : jp2Convert env image_data with
    | none => rw [hc] at h; cases h
    | some d' =>
        rw [hc] at h
        simp only [Option.some.injEq, Prod.mk.injEq] at h
        exact ⟨h.2.symm, by rw [h.1]⟩
  · right
    simp only [normalizeImage, if_neg hj] at h
    simp only [Option.some.injEq, Prod.mk.injEq] at h
    exact ⟨hj, h.2.symm, h.1.symm⟩

theorem normalizeImage_normExt (env : Env Img) (image : EmbeddedImage)
    (d : List Nat) (e : String)
    (h : normalizeImage env image.data (strLower (splitext image.name).2) = some (d, e)) :
    e = normExt image := by
  rcases normalizeImage_cases env image.data _ d e h with ⟨hj, he, _⟩ | ⟨hj, he, _⟩
  · rw [he, normExt, if_pos hj]
  · rw [he, normExt, if_neg hj]

theorem newOuts_ext_normalized (env : Env Img) :
    ∀ (l : List EmbeddedImage) (seen : List Int) (c : Nat),
    ∀ o ∈ newOuts env seen c l, o.ext ≠ ".jp2" ∧ o.ext ≠ ".jpx"
  | [], seen, c => by simp [newOuts]
  | image :: rest, seen, c => by
      rw [newOuts_cons]
      by_cases hm : env.h image.data ∈ seen
      · rw [if_pos hm]; exact newOuts_ext_normalized env rest seen c
      · rw [if_neg hm]
        cases hn : normalizeImage env image.data (strLower (splitext image.name).2) with
        | none => exact newOuts_ext_normalized env rest _ c
        | some de =>
            obtain ⟨d, e⟩ := de
            intro o ho
            rcases List.mem_cons.mp ho with h1 | h1
            · subst h1
              rcases normalizeImage_cases env image.data _ d e hn with
                ⟨_, he, _⟩ | ⟨hj, he, _⟩
              · rw [he]
                dsimp only
                exact ⟨by decide, by decide⟩
              · rw [he]
                dsimp only
                simp only [List.mem_cons, List.mem_singleton] at hj
                push_neg at hj
                exact ⟨hj.1, hj.2.1⟩
            · exact newOuts_ext_normalized env rest _ (c + 1) o h1

theorem newOuts_names_full (env : Env Img) :
    ∀ (l : List EmbeddedImage) (seen : List Int) (c : Nat),
    (∀ image ∈ l, env.h image.data ∉ seen) →
    l.Pairwise (fun a b => env.h a.data ≠ env.h b.data) →
    (∀ image ∈ l,
      normalizeImage env image.data (strLower (splitext image.name).2) ≠ none) →
    (newOuts env seen c l).map OutFile.name = namesFrom env c l
  | [], _, _, _, _, _ => rfl
  | image :: rest, seen, c, hfresh, hpair, hconv => by
      rw [newOuts_cons, namesFrom]
      rw [if_neg (hfresh image (List.mem_cons_self _ _))]
      cases hn : normalizeImage env image.data (strLower (splitext image.name).2) with
      | none => exact absurd hn (hconv image (List.mem_cons_self _ _))
      | some de =>
          obtain ⟨d, e⟩ := de
          dsimp only
          rw [List.map_cons]
          have hpair' := List.pairwise_cons.mp hpair
          rw [normalizeImage_normExt env image d e hn]
          congr 1
          refine newOuts_names_full env rest _ (c + 1) ?_ hpair'.2 ?_
          · intro im him hmem
            rcases List.mem_cons.mp hmem with h1 | h1
            · exact hpair'.1 im him h1.symm
            · exact hfresh im (List.mem_cons_of_mem _ him) h1
          · intro im him
            exact hconv im (List.mem_cons_of_mem _ him)

theorem namesFrom_length (env : Env Img) :
    ∀ (l : List EmbeddedImage) (c : Nat), (namesFrom env c l).length = l.length
  | [], _ => rfl
  | image :: rest, c => by
      rw [namesFrom, List.length_cons, List.length_cons,
        namesFrom_length env rest (c + 1)]

theorem namesFrom_getD (env : Env Img) :
    ∀ (l : List EmbeddedImage) (c i : Nat), i < l.length →
    (namesFrom env c l).getD i "" = outName env (c + i) (normExt (l.getD i ⟨[], ""⟩))
  | [], _, i, hi => absurd hi (by simp)
  | image :: rest, c, 0, _ => by simp [namesFrom]
  | image :: rest, c, i + 1, hi => by
      rw [namesFrom]
      simp only [List.getD_cons_succ]
      rw [namesFrom_getD env rest (c + 1) i (by simpa using hi)]
      have : c + 1 + i = c + (i + 1) := by omega
      rw [this]

theorem digit_toString_length : ∀ d : Fin 10, (toString d.val).length = 1 := by decide

theorem digit_toString_isDigit :
    ∀ d : Fin 10, ∀ c ∈ (toString d.val).data, c.isDigit = true := by decide

theorem generate_random_number_length (dig : Nat → Fin 10) :
    ∀ n, (generate_random_number dig n).length = n
  | 0 => rfl
  | n + 1 => by
      show (generate_random_number dig n ++ toString (dig n).val).length = n + 1
      rw [String.length_append, generate_random_number_length dig n,
        digit_toString_length]

theorem generate_random_number_isDigit (dig : Nat → Fin 10) :
    ∀ n, ∀ c ∈ (generate_random_number dig n).data, c.isDigit = true
  | 0 => by intro c hc; exact absurd hc (by simp [generate_random_number])
  | n + 1 => by
      intro c hc
      rw [show generate_random_number dig (n + 1)
            = generate_random_number dig n ++ toString (dig n).val from rfl,
        String.data_append] at hc
      rcases List.mem_append.mp hc with h1 | h1
      · exact generate_random_number_isDigit dig n c h1
      · exact digit_toString_isDigit (dig n) c h1

theorem outName_split (env : Env Img) (count : Nat) (e : String) :
    outName env count e =
      (if count = 0 then "user-img-" else if count = 1 then "sign-img-" else "") ++
        generate_random_number (env.dig count) 30 ++ e := by
  by_cases h0 : count = 0
  · simp [outName, h0]
  · by_cases h1 : count = 1
    · simp [outName, h0, h1]
    · simp [outName, h0, h1]

theorem jsonLookup_setKey (k : String) (v : Json) :
    ∀ l, jsonLookup k (setKey k v l) = some v
  | [] => by simp [setKey, jsonLookup]
  | (k', v') :: rest => by
      by_cases h : k' = k
      · simp [setKey, jsonLookup, h]
      · simp [setKey, jsonLookup, h, jsonLookup_setKey k v rest]

theorem stepsAbort_spec (env : Env Img) (abort : Nat → Bool) :
    ∀ (l : List EmbeddedImage) (n k : Nat) (s : St), n ≤ l.length →
    (∀ i, i < n → abort (k + i) = false) → abort (k + n) = true →
    stepsAbort env abort k l s = processImages env (l.take n) s
  | [], n, k, s, hn, _, _ => by
      have h0 : n = 0 := Nat.le_zero.mp (by simpa using hn)
      subst h0
      rfl
  | image :: rest, 0, k, s, _, _, hat => by
      have h0 : abort k = true := by simpa using hat
      rw [show stepsAbort env abort k (image :: rest) s
            = if abort k then s
              else stepsAbort env abort (k + 1) rest (step env s image) from rfl]
      rw [if_pos h0]
      rfl
  | image :: rest, m + 1, k, s, hn, hbefore, hat => by
      have h0 : abort k = false := by simpa using hbefore 0 (Nat.succ_pos m)
      rw [show stepsAbort env abort k (image :: rest) s
            = if abort k then s
              else stepsAbort env abort (k + 1) rest (step env s image) from rfl]
      rw [h0]
      simp only [Bool.false_eq_true, if_false]
      rw [stepsAbort_spec env abort rest m (k + 1) (step env s image)
        (by simpa using hn)
        (fun i hi => by
          have hb := hbefore (i + 1) (by omega)
          rw [show k + 1 + i = k + (i + 1) by omega]
          exact hb)
        (by rw [show k + 1 + m = k + (m + 1) by omega]; exact hat)]
      rfl

theorem upload_file_make_response (env : Env Img) (urlFor : String → String)
    (req : UploadRequest) :
    ∃ data status, upload_file env urlFor req = make_response data status := by
  unfold upload_file
  split
  · exact ⟨_, _, rfl⟩
  split
  · exact ⟨_, _, rfl⟩
  split
  · exact ⟨_, _, rfl⟩
  split
  · exact ⟨_, _, rfl⟩
  dsimp only
  split
  · exact ⟨_, _, rfl⟩
  · exact ⟨_, _, rfl⟩

/-- Claim C1: deduplication is exact-byte over the raw payload: a later
occurrence whose bytes already occurred earlier (page order, then in-page
order) contributes no output file and no position slot — extraction of the
document equals extraction of the document with that occurrence removed —
and no two output files of one run share a content fingerprint. -/
theorem claim_C1_dedup_exact_byte (env : Env Img) (pages pages' : List Page)
    (xs zs : List EmbeddedImage) (y : EmbeddedImage)
    (hflat : pages.flatten = xs ++ y :: zs)
    (hflat' : pages'.flatten = xs ++ zs)
    (hdup : ∃ x ∈ xs, x.data = y.data) :
    extract_images_from_pdf env (some pages) = extract_images_from_pdf env (some pages') ∧
    (extractRun env pages).written.Pairwise
      (fun o1 o2 => env.h o1.src ≠ env.h o2.src) := by
  constructor
  · rw [extract_images_eq_names, extract_images_eq_names, hflat, hflat']
    rw [newOuts_append, newOuts_append]
    congr 1
    rw [newOuts_cons]
    obtain ⟨x, hx, hxy⟩ := hdup
    have hy : env.h y.data ∈ seenAfter env [] xs := by
      rw [mem_seenAfter_iff]
      exact Or.inr ⟨x, hx, by rw [hxy]⟩
    rw [if_pos hy]
  · rw [extractRun_spec]
    exact newOuts_pairwise env pages.flatten [] 0

/-- Concrete instance of claim C1: a document repeating the same image bytes
twice extracts exactly as the document with the duplicate removed. -/
theorem claim_C1_witness :
    (([[iA, iA]] : List Page).flatten = [iA] ++ iA :: [] ∧
     ([[iA]] : List Page).flatten = [iA] ++ [] ∧ ∃ x ∈ [iA], x.data = iA.data) ∧
    (extract_images_from_pdf envU (some [[iA, iA]]) =
        extract_images_from_pdf envU (some [[iA]]) ∧
      (extractRun envU [[iA, iA]]).written.Pairwise
        (fun o1 o2 => envU.h o1.src ≠ envU.h o2.src)) :=
  ⟨⟨rfl, rfl, by decide⟩,
   claim_C1_dedup_exact_byte envU [[iA, iA]] [[iA]] [iA] [] iA rfl rfl (by decide)⟩

/-- Claim C2: on a document of pairwise byte-distinct images whose content
fingerprints do not collide and with no codec-normalization failure,
extraction returns one filename per image in extraction order; position 0 is
prefixed "user-img-", position 1 "sign-img-", later positions carry no
prefix, and every filename is that prefix, a 30-digit random numeric string,
and the possibly normalized extension. -/
theorem claim_C2_distinct_images_names (env : Env Img) (pages : List Page)
    (hdistinct : pages.flatten.Pairwise (fun a b => a.data ≠ b.data))
    (hinj : ∀ a ∈ pages.flatten, ∀ b ∈ pages.flatten,
      env.h a.data = env.h b.data → a.data = b.data)
    (hconv : ∀ image ∈ pages.flatten,
      normalizeImage env image.data (strLower (splitext image.name).2) ≠ none) :
    (extract_images_from_pdf env (some pages)).length = pages.flatten.length ∧
    ∀ i, i < pages.flatten.length →
      ∃ r : String, r.length = 30 ∧ (∀ c ∈ r.data, c.isDigit = true) ∧
        (extract_images_from_pdf env (some pages)).getD i "" =
          (if i = 0 then "user-img-" else if i = 1 then "sign-img-" else "") ++ r ++
            normExt (pages.flatten.getD i ⟨[], ""⟩) := by
  have hpairh : pages.flatten.Pairwise (fun a b => env.h a.data ≠ env.h b.data) := by
    refine List.Pairwise.imp_of_mem ?_ hdistinct
    intro a b ha hb hne heq
    exact hne (hinj a ha b hb heq)
  have hnames : extract_images_from_pdf env (some pages)
      = namesFrom env 0 pages.flatten := by
    rw [extract_images_eq_names]
    exact newOuts_names_full env pages.flatten [] 0 (by simp) hpairh hconv
  constructor
  · rw [hnames, namesFrom_length]
  · intro i hi
    refine ⟨generate_random_number (env.dig i) 30,
      generate_random_number_length _ 30, generate_random_number_isDigit _ 30, ?_⟩
    rw [hnames, namesFrom_getD env pages.flatten 0 i hi,
      show (0 : Nat) + i = i by omega]
    exact outName_split env i _

/-- Concrete instance of claim C2: two byte-distinct PNG images yield two
positionally named files. -/
theorem claim_C2_witness :
    (([[iA, iB]] : List Page).flatten.Pairwise (fun a b => a.data ≠ b.data) ∧
     (∀ a ∈ ([[iA, iB]] : List Page).flatten, ∀ b ∈ ([[iA, iB]] : List Page).flatten,
        envU.h a.data = envU.h b.data → a.data = b.data) ∧
     (∀ image ∈ ([[iA, iB]] : List Page).flatten,
        normalizeImage envU image.data (strLower (splitext image.name).2) ≠ none)) ∧
    ((extract_images_from_pdf envU (some [[iA, iB]])).length
        = ([[iA, iB]] : List Page).flatten.length ∧
     ∀ i, i < ([[iA, iB]] : List Page).flatten.length →
       ∃ r : String, r.length = 30 ∧ (∀ c ∈ r.data, c.isDigit = true) ∧
         (extract_images_from_pdf envU (some [[iA, iB]])).getD i "" =
           (if i = 0 then "user-img-" else if i = 1 then "sign-img-" else "") ++ r ++
             normExt (([[iA, iB]] : List Page).flatten.getD i ⟨[], ""⟩)) :=
  ⟨⟨by decide, by decide, by decide⟩,
   claim_C2_distinct_images_names envU [[iA, iB]] (by decide) (by decide) (by decide)⟩

/-- Claim C3: a JPEG2000-family image (declared extension lower-casing to
".jp2" or ".jpx") is decoded, converted to RGB exactly when its mode is the
alpha-channel mode "RGBA" or the indexed mode "P", re-encoded as PNG and
written with extension ".png"; and no output file of any run carries
extension ".jp2" or ".jpx". -/
theorem claim_C3_codec_normalization (env : Env Img) (pages : List Page)
    (image : EmbeddedImage) (s : St) (d : List Nat)
    (hext : strLower (splitext image.name).2 ∈ [".jp2", ".jpx"])
    (hfresh : env.h image.data ∉ s.seen_images)
    (hconv : jp2Convert env image.data = some d) :
    (∀ o ∈ (extractRun env pages).written, o.ext ≠ ".jp2" ∧ o.ext ≠ ".jpx") ∧
    (∃ fn stem, fn = stem ++ ".png" ∧
      (step env s image).extracted_files = s.extracted_files ++ [fn] ∧
      (step env s image).written = s.written ++ [⟨fn, ".png", d, image.data⟩] ∧
      (step env s image).image_count = s.image_count + 1) ∧
    (∀ (d0 : List Nat) (img0 : Img), env.pilOpen d0 = some img0 →
      (env.mode img0 = "RGBA" ∨ env.mode img0 = "P") →
      jp2Convert env d0 = env.savePNG (env.toRGB img0)) := by
  refine ⟨?_, ?_, ?_⟩
  · rw [extractRun_spec]
    exact newOuts_ext_normalized env pages.flatten [] 0
  · have hnorm : normalizeImage env image.data (strLower (splitext image.name).2)
        = some (d, ".png") := by
      simp only [normalizeImage, if_pos hext, hconv]
    rw [step_write env s image d ".png" hfresh hnorm]
    exact ⟨outName env s.image_count ".png",
      (if s.image_count = 0 then "user-img-"
        else if s.image_count = 1 then "sign-img-" else "")
        ++ generate_random_number (env.dig s.image_count) 30,
      outName_split env s.image_count ".png", rfl, rfl, rfl⟩
  · intro d0 img0 hopen hmode
    simp only [jp2Convert, hopen]
    rw [if_pos hmode]

/-- Concrete instance of claim C3: a ".jp2"-named image is written as
".png". -/
theorem claim_C3_witness :
    (strLower (splitext iJ.name).2 ∈ [".jp2", ".jpx"] ∧
     envU.h iJ.data ∉ initSt.seen_images ∧ jp2Convert envU iJ.data = some [9]) ∧
    ((∀ o ∈ (extractRun envU [[iJ]]).written, o.ext ≠ ".jp2" ∧ o.ext ≠ ".jpx") ∧
     (∃ fn stem, fn = stem ++ ".png" ∧
       (step envU initSt iJ).extracted_files = initSt.extracted_files ++ [fn] ∧
       (step envU initSt iJ).written = initSt.written ++ [⟨fn, ".png", [9], iJ.data⟩] ∧
       (step envU initSt iJ).image_count = initSt.image_count + 1) ∧
     (∀ (d0 : List Nat) (img0 : Unit), envU.pilOpen d0 = some img0 →
       (envU.mode img0 = "RGBA" ∨ envU.mode img0 = "P") →
       jp2Convert envU d0 = envU.savePNG (envU.toRGB img0))) :=
  ⟨⟨by decide, by decide, by decide⟩,
   claim_C3_codec_normalization envU [[iJ]] iJ initSt [9]
     (by decide) (by decide) (by decide)⟩

theorem newOuts_seen_head (env : Env Img) (l : List EmbeddedImage) (x : Int)
    (hx : ∀ image ∈ l, env.h image.data ≠ x) (v : List Int) (c : Nat) :
    newOuts env (x :: v) c l = newOuts env v c l := by
  have h := newOuts_seen_mid env l x hx [] v c
  simpa using h

/-- Claim C4: when codec conversion of a JPEG2000-family image fails, the
image is dropped entirely: extraction equals extraction of the document
without it (same filenames, same position counter, same written files), its
original bytes are never written as a fallback, and the remaining images are
still processed. -/
theorem claim_C4_conversion_failure_skips (env : Env Img) (pages pages' : List Page)
    (xs rest : List EmbeddedImage) (bad : EmbeddedImage)
    (hflat : pages.flatten = xs ++ bad :: rest)
    (hflat' : pages'.flatten = xs ++ rest)
    (hext : strLower (splitext bad.name).2 ∈ [".jp2", ".jpx"])
    (hconv : jp2Convert env bad.data = none)
    (hfreshxs : ∀ x ∈ xs, env.h x.data ≠ env.h bad.data)
    (hfreshrest : ∀ x ∈ rest, env.h x.data ≠ env.h bad.data) :
    extract_images_from_pdf env (some pages) = extract_images_from_pdf env (some pages') ∧
    (extractRun env pages).image_count = (extractRun env pages').image_count ∧
    (extractRun env pages).written = (extractRun env pages').written ∧
    ∀ o ∈ (extractRun env pages).written, o.src ≠ bad.data := by
  have hnorm : normalizeImage env bad.data (strLower (splitext bad.name).2) = none := by
    simp only [normalizeImage, if_pos hext, hconv]
  have hbadfresh : env.h bad.data ∉ seenAfter env [] xs := by
    rw [mem_seenAfter_iff]
    rintro (hx | ⟨im, him, hxe⟩)
    · exact absurd hx (List.not_mem_nil _)
    · exact hfreshxs im him hxe.symm
  have hkey : newOuts env [] 0 (xs ++ bad :: rest) = newOuts env [] 0 (xs ++ rest) := by
    rw [newOuts_append, newOuts_append]
    congr 1
    rw [newOuts_cons, if_neg hbadfresh, hnorm]
    exact newOuts_seen_head env rest (env.h bad.data) hfreshrest _ _
  refine ⟨?_, ?_, ?_, ?_⟩
  · rw [extract_images_eq_names, extract_images_eq_names, hflat, hflat', hkey]
  · rw [extractRun_spec, extractRun_spec, hflat, hflat', hkey]
  · rw [extractRun_spec, extractRun_spec, hflat, hflat', hkey]
  · rw [extractRun_spec, hflat, hkey]
    intro o ho
    obtain ⟨⟨im, him, hsrc⟩, _⟩ := newOuts_src env (xs ++ rest) [] 0 o ho
    intro hbad
    have hne : env.h im.data ≠ env.h bad.data := by
      rcases List.mem_append.mp him with h1 | h1
      · exact hfreshxs im h1
      · exact hfreshrest im h1
    exact hne (by rw [← hsrc, hbad])

/-- Concrete instance of claim C4: a failing ".jp2" image is skipped and the
following image is still extracted. -/
theorem claim_C4_witness :
    (([[iJ, iB]] : List Page).flatten = [] ++ iJ :: [iB] ∧
     ([[iB]] : List Page).flatten = [] ++ [iB] ∧
     strLower (splitext iJ.name).2 ∈ [".jp2", ".jpx"] ∧
     jp2Convert envF iJ.data = none ∧
     (∀ x ∈ ([] : List EmbeddedImage), envF.h x.data ≠ envF.h iJ.data) ∧
     (∀ x ∈ [iB], envF.h x.data ≠ envF.h iJ.data)) ∧
    (extract_images_from_pdf envF (some [[iJ, iB]]) =
        extract_images_from_pdf envF (some [[iB]]) ∧
     (extractRun envF [[iJ, iB]]).image_count = (extractRun envF [[iB]]).image_count ∧
     (extractRun envF [[iJ, iB]]).written = (extractRun envF [[iB]]).written ∧
     ∀ o ∈ (extractRun envF [[iJ, iB]]).written, o.src ≠ iJ.data) :=
  ⟨⟨rfl, rfl, by decide, by decide, by decide, by decide⟩,
   claim_C4_conversion_failure_skips envF [[iJ, iB]] [[iB]] [] [iB] iJ rfl rfl
     (by decide) (by decide) (by decide) (by decide)⟩

/-- Claim C9: a JPEG2000-family image whose conversion fails still has its
content fingerprint recorded in the seen set, so no output file of the whole
run stems from that byte content (no later byte-identical occurrence is
written either). -/
theorem claim_C9_failed_conversion_records_fingerprint (env : Env Img)
    (pages : List Page) (xs rest : List EmbeddedImage) (bad : EmbeddedImage)
    (hflat : pages.flatten = xs ++ bad :: rest)
    (hext : strLower (splitext bad.name).2 ∈ [".jp2", ".jpx"])
    (hconv : jp2Convert env bad.data = none)
    (hfreshxs : ∀ x ∈ xs, env.h x.data ≠ env.h bad.data) :
    env.h bad.data ∈ seenAfter env [] (xs ++ [bad]) ∧
    (∀ o ∈ (extractRun env pages).written, env.h o.src ≠ env.h bad.data) ∧
    (∀ o ∈ (extractRun env pages).written, o.src ≠ bad.data) := by
  have hnorm : normalizeImage env bad.data (strLower (splitext bad.name).2) = none := by
    simp only [normalizeImage, if_pos hext, hconv]
  have hbadfresh : env.h bad.data ∉ seenAfter env [] xs := by
    rw [mem_seenAfter_iff]
    rintro (hx | ⟨im, him, hxe⟩)
    · exact absurd hx (List.not_mem_nil _)
    · exact hfreshxs im him hxe.symm
  have hsecond : ∀ o ∈ (extractRun env pages).written,
      env.h o.src ≠ env.h bad.data := by
    rw [extractRun_spec, hflat, newOuts_append]
    rw [newOuts_cons, if_neg hbadfresh, hnorm]
    intro o ho
    rcases List.mem_append.mp ho with h1 | h1
    · obtain ⟨⟨im, him, hsrc⟩, _⟩ := newOuts_src env xs [] 0 o h1
      rw [hsrc]
      exact hfreshxs im him
    · obtain ⟨_, hns⟩ := newOuts_src env rest _ _ o h1
      intro heq
      exact hns (heq ▸ List.mem_cons_self _ _)
  refine ⟨?_, hsecond, ?_⟩
  · rw [mem_seenAfter_iff]
    exact Or.inr ⟨bad, List.mem_append.mpr (Or.inr (List.mem_singleton.mpr rfl)), rfl⟩
  · intro o ho heq
    exact hsecond o ho (by rw [heq])

/-- Concrete instance of claim C9: a failing ".jp2" image reoccurring
byte-identically later yields no output at all. -/
theorem claim_C9_witness :
    (([[iJ, iJ]] : List Page).flatten = [] ++ iJ :: [iJ] ∧
     strLower (splitext iJ.name).2 ∈ [".jp2", ".jpx"] ∧
     jp2Convert envF iJ.data = none ∧
     (∀ x ∈ ([] : List EmbeddedImage), envF.h x.data ≠ envF.h iJ.data)) ∧
    (envF.h iJ.data ∈ seenAfter envF [] ([] ++ [iJ]) ∧
     (∀ o ∈ (extractRun envF [[iJ, iJ]]).written, envF.h o.src ≠ envF.h iJ.data) ∧
     (∀ o ∈ (extractRun envF [[iJ, iJ]]).written, o.src ≠ iJ.data)) :=
  ⟨⟨rfl, by decide, by decide, by decide⟩,
   claim_C9_failed_conversion_records_fingerprint envF [[iJ, iJ]] [] [iJ] iJ rfl
     (by decide) (by decide) (by decide)⟩

theorem upload_file_valid_empty (env : Env Img) (urlFor : String → String)
    (req : UploadRequest) (hfile : req.hasFilePart = true) (hname : req.filename ≠ "")
    (hallow : allowed_file req.filename = true) (hsize : req.size ≤ MAX_FILE_SIZE)
    (hE : extract_images_from_pdf env req.pdf = []) :
    upload_file env urlFor req =
      make_response [("message", Json.str "No images found in the PDF")] 200 := by
  unfold upload_file
  simp only [hfile, hallow, Bool.not_true, Bool.false_eq_true, if_false,
    if_neg hname, if_neg (Nat.not_lt.mpr hsize)]
  rw [hE]
  simp

/-- Claim C5: an unparseable document yields the empty extraction result,
identical to a valid document with zero embedded images, and in both cases
the upload endpoint answers 200 with the "No images found in the PDF"
message — the caller cannot distinguish the two. -/
theorem claim_C5_parse_failure_swallowed (env : Env Img) (urlFor : String → String)
    (req req0 : UploadRequest) (pages0 : List Page)
    (hfile : req.hasFilePart = true) (hname : req.filename ≠ "")
    (hallow : allowed_file req.filename = true) (hsize : req.size ≤ MAX_FILE_SIZE)
    (hpdf : req.pdf = none)
    (hfile0 : req0.hasFilePart = true) (hname0 : req0.filename ≠ "")
    (hallow0 : allowed_file req0.filename = true) (hsize0 : req0.size ≤ MAX_FILE_SIZE)
    (hpdf0 : req0.pdf = some pages0) (hempty : pages0.flatten = []) :
    extract_images_from_pdf env req.pdf = [] ∧
    extract_images_from_pdf env req0.pdf = [] ∧
    upload_file env urlFor req =
      make_response [("message", Json.str "No images found in the PDF")] 200 ∧
    upload_file env urlFor req = upload_file env urlFor req0 ∧
    (upload_file env urlFor req).2 = 200 := by
  have hE : extract_images_from_pdf env req.pdf = [] := by rw [hpdf]; rfl
  have hE0 : extract_images_from_pdf env req0.pdf = [] := by
    rw [hpdf0, extract_images_eq_names, hempty]
    rfl
  have hu : upload_file env urlFor req =
      make_response [("message", Json.str "No images found in the PDF")] 200 :=
    upload_file_valid_empty env urlFor req hfile hname hallow hsize hE
  have hu0 : upload_file env urlFor req0 =
      make_response [("message", Json.str "No images found in the PDF")] 200 :=
    upload_file_valid_empty env urlFor req0 hfile0 hname0 hallow0 hsize0 hE0
  exact ⟨hE, hE0, hu, by rw [hu, hu0], by rw [hu]; rfl⟩

/-- Concrete instance of claim C5: a failed parse and an empty document give
the same 200 response. -/
theorem claim_C5_witness :
    (reqN.hasFilePart = true ∧ reqN.filename ≠ "" ∧
     allowed_file reqN.filename = true ∧ reqN.size ≤ MAX_FILE_SIZE ∧ reqN.pdf = none ∧
     reqE.hasFilePart = true ∧ reqE.filename ≠ "" ∧
     allowed_file reqE.filename = true ∧ reqE.size ≤ MAX_FILE_SIZE ∧
     reqE.pdf = some [] ∧ ([] : List Page).flatten = []) ∧
    (extract_images_from_pdf envU reqN.pdf = [] ∧
     extract_images_from_pdf envU reqE.pdf = [] ∧
     upload_file envU urlId reqN =
       make_response [("message", Json.str "No images found in the PDF")] 200 ∧
     upload_file envU urlId reqN = upload_file envU urlId reqE ∧
     (upload_file envU urlId reqN).2 = 200) :=
  ⟨⟨rfl, by decide, by decide, by decide, rfl, rfl, by decide, by decide, by decide,
    rfl, rfl⟩,
   claim_C5_parse_failure_swallowed envU urlId reqN reqE [] rfl (by decide)
     (by decide) (by decide) rfl rfl (by decide) (by decide) (by decide) rfl rfl⟩

/-- Claim C6: the size gate is boundary-inclusive: a file strictly larger
than 2*1024*1024 bytes is rejected with 400 and the size-limit message; a
file of exactly 2*1024*1024 bytes passes the gate and is processed with
status 200. -/
theorem claim_C6_size_gate_boundary (env : Env Img) (urlFor : String → String)
    (req : UploadRequest) (hfile : req.hasFilePart = true)
    (hname : req.filename ≠ "") (hallow : allowed_file req.filename = true) :
    (req.size > 2 * 1024 * 1024 →
      upload_file env urlFor req =
        make_response [("error", Json.str "File size exceeds 2 MB limit")] 400) ∧
    (req.size = 2 * 1024 * 1024 → (upload_file env urlFor req).2 = 200) := by
  constructor
  · intro hbig
    unfold upload_file
    simp only [hfile, hallow, Bool.not_true, Bool.false_eq_true, if_false,
      if_neg hname, if_pos (show req.size > MAX_FILE_SIZE from hbig)]
  · intro heq
    have hle : ¬ req.size > MAX_FILE_SIZE := by
      rw [heq]
      decide
    unfold upload_file
    simp only [hfile, hallow, Bool.not_true, Bool.false_eq_true, if_false,
      if_neg hname, if_neg hle]
    split
    · rfl
    · rfl

/-- Concrete instance of claim C6: a request one byte over the limit is
rejected with the size-limit error. -/
theorem claim_C6_witness :
    (reqBig.hasFilePart = true ∧ reqBig.filename ≠ "" ∧
     allowed_file reqBig.filename = true) ∧
    ((reqBig.size > 2 * 1024 * 1024 →
       upload_file envU urlId reqBig =
         make_response [("error", Json.str "File size exceeds 2 MB limit")] 400) ∧
     (reqBig.size = 2 * 1024 * 1024 → (upload_file envU urlId reqBig).2 = 200)) :=
  ⟨⟨rfl, by decide, by decide⟩,
   claim_C6_size_gate_boundary envU urlId reqBig rfl (by decide) (by decide)⟩

/-- Claim C7: the upload route rejects structurally invalid requests with
400 and the enumerated message, checking missing file part, empty filename,
extension and size in that order, and every request passing all four checks
returns status 200, even with zero images extracted; ".txt" is not an
allowed extension while ".pdf" is. -/
theorem claim_C7_validation_order (env : Env Img) (urlFor : String → String)
    (req : UploadRequest) :
    (req.hasFilePart = false →
      upload_file env urlFor req = make_response [("error", Json.str "No file part")] 400) ∧
    (req.hasFilePart = true → req.filename = "" →
      upload_file env urlFor req =
        make_response [("error", Json.str "No selected file")] 400) ∧
    (req.hasFilePart = true → req.filename ≠ "" → allowed_file req.filename = false →
      upload_file env urlFor req =
        make_response [("error", Json.str "Invalid file type")] 400) ∧
    (req.hasFilePart = true → req.filename ≠ "" → allowed_file req.filename = true →
      req.size > MAX_FILE_SIZE →
      upload_file env urlFor req =
        make_response [("error", Json.str "File size exceeds 2 MB limit")] 400) ∧
    (req.hasFilePart = true → req.filename ≠ "" → allowed_file req.filename = true →
      req.size ≤ MAX_FILE_SIZE → (upload_file env urlFor req).2 = 200) ∧
    allowed_file "doc.txt" = false ∧ allowed_file "doc.pdf" = true := by
  refine ⟨?_, ?_, ?_, ?_, ?_, by decide, by decide⟩
  · intro h1
    unfold upload_file
    simp only [h1, Bool.not_false, if_true]
  · intro h1 h2
    unfold upload_file
    simp only [h1, Bool.not_true, Bool.false_eq_true, if_false, if_pos h2]
  · intro h1 h2 h3
    unfold upload_file
    simp only [h1, h3, Bool.not_true, Bool.not_false, Bool.false_eq_true, if_false,
      if_neg h2, if_true]
  · intro h1 h2 h3 h4
    unfold upload_file
    simp only [h1, h3, Bool.not_true, Bool.false_eq_true, if_false, if_neg h2,
      if_pos (show req.size > MAX_FILE_SIZE from h4)]
  · intro h1 h2 h3 h4
    unfold upload_file
    simp only [h1, h3, Bool.not_true, Bool.false_eq_true, if_false, if_neg h2,
      if_neg (Nat.not_lt.mpr h4)]
    split
    · rfl
    · rfl

/-- Concrete instance of claim C7: a ".txt" upload is rejected as an invalid
file type. -/
theorem claim_C7_witness :
    (reqTxt.hasFilePart = true ∧ reqTxt.filename ≠ "" ∧
     allowed_file reqTxt.filename = false) ∧
    upload_file envU urlId reqTxt =
      make_response [("error", Json.str "Invalid file type")] 400 :=
  ⟨⟨rfl, by decide, by decide⟩,
   (claim_C7_validation_order envU urlId reqTxt).2.2.1 rfl (by decide) (by decide)⟩

/-- Claim C8: every JSON response of the service (the home route and every
branch of the upload route, all built by make_response) carries the constant
TG_Channel field. -/
theorem claim_C8_tg_channel_everywhere (env : Env Img) (urlFor : String → String) :
    (∀ (data : List (String × Json)) (status : Nat),
      jsonLookup "TG_Channel" (make_response data status).1 = some (Json.str TG_CHANNEL)) ∧
    jsonLookup "TG_Channel" home.1 = some (Json.str TG_CHANNEL) ∧
    ∀ req : UploadRequest,
      jsonLookup "TG_Channel" (upload_file env urlFor req).1 = some (Json.str TG_CHANNEL) := by
  have hmk : ∀ (data : List (String × Json)) (status : Nat),
      jsonLookup "TG_Channel" (make_response data status).1 = some (Json.str TG_CHANNEL) :=
    fun data _ => jsonLookup_setKey _ _ data
  refine ⟨hmk, hmk _ _, ?_⟩
  intro req
  obtain ⟨data, status, hup⟩ := upload_file_make_response env urlFor req
  rw [hup]
  exact hmk data status

/-- Claim C10: an exception raised after parsing, while handling the image at
flattened position n, leaves the filenames appended before it as the returned
result: the run returns the extraction of exactly the first n images. -/
theorem claim_C10_partial_list_on_exception (env : Env Img) (abort : Nat → Bool)
    (pages : List Page) (n : Nat) (hn : n ≤ pages.flatten.length)
    (hbefore : ∀ i, i < n → abort i = false) (hat : abort n = true) :
    extractAbort env abort (some pages) =
      extract_images_from_pdf env (some [pages.flatten.take n]) := by
  have hR : extract_images_from_pdf env (some [pages.flatten.take n])
      = (processImages env (pages.flatten.take n) initSt).extracted_files := by
    rw [extract_images_from_pdf, extractRun, processPages_eq_flatten]
    simp only [List.flatten_cons, List.flatten_nil, List.append_nil]
  rw [hR]
  show (stepsAbort env abort 0 pages.flatten initSt).extracted_files = _
  rw [stepsAbort_spec env abort pages.flatten n 0 initSt hn
    (fun i hi => by simpa using hbefore i hi) (by simpa using hat)]

/-- Concrete instance of claim C10: an exception at the second image leaves
the first image's filename in the result. -/
theorem claim_C10_witness :
    (1 ≤ ([[iA, iB]] : List Page).flatten.length ∧
     (∀ i, i < 1 → (fun j => decide (j = 1)) i = false) ∧
     (fun j => decide (j = 1)) 1 = true) ∧
    extractAbort envU (fun j => decide (j = 1)) (some [[iA, iB]]) =
      extract_images_from_pdf envU (some [([[iA, iB]] : List Page).flatten.take 1]) :=
  ⟨⟨by decide, by decide, by decide⟩,
   claim_C10_partial_list_on_exception envU (fun j => decide (j = 1)) [[iA, iB]] 1
     (by decide) (by decide) (by decide)⟩

end Signtosm
